import Mathlib

/-!
# Verification of the scientific calculator (`cal.py`)

The program is a tkinter scientific calculator.  Its algorithmic core is the
`_evaluate` method: the composed expression string has every `'%'` replaced by
`"/100"`, is evaluated by Python's built-in `eval` against the environment
produced by `make_math_env` (mode-dependent `sin`/`cos`/`tan`, `sqrt`, base-10
`log`, natural `ln`, `abs`, `round`, constants `pi` and `e`, with
`__builtins__` disabled), and on success the display, the expression buffer and
the stored last answer are updated, while any exception yields the display
`"Error"` and an empty buffer.

Python's `eval` itself is host-language code, not part of the repository; the
expression grammar it accepts (numbers, names, one-argument calls, unary `+`/`-`,
`+ - * / **` with the usual precedence, parentheses) is modelled here by an
explicit tokenizer and fuel-indexed recursive-descent parser over exactly the
names bound by `make_math_env`.  Numeric values are idealised as real numbers;
operations that raise in Python (division by zero, `sqrt`/`log`/`ln` outside
their domain, `0 ** negative`, undefined names, syntax errors) are modelled as
`none`.  Float *formatting* (`f"{result:.12g}"` / `str`) is genuine
floating-point behaviour and is abstracted as a parameter `fmt : ℝ → String`
of the state transition; no verified property depends on its value.
-/

/-- Tokens of the expression language accepted by Python's `eval` on the
reachable button alphabet: numbers, identifiers, operators and parentheses.
`'*' '*'` lexes as the single power token, as in Python. -/
inductive Token where
  | num (mant scale : ℕ)
  | ident (s : String)
  | plus
  | minus
  | mul
  | div
  | pow
  | lparen
  | rparen
  deriving DecidableEq, Repr

/-- Decimal digits. -/
def isDigitCh (c : Char) : Bool :=
  '0' ≤ c && c ≤ '9'

/-- Letters, the only identifier characters reachable from the button grid. -/
def isAlphaCh (c : Char) : Bool :=
  ('a' ≤ c && c ≤ 'z') || ('A' ≤ c && c ≤ 'Z')

/-- Numeric value of a digit character. -/
def digitVal (c : Char) : ℕ :=
  c.toNat - '0'.toNat

/-- Read a maximal run of digits, returning them and the rest. -/
def takeDigits : List Char → (List Char × List Char)
  | [] => ([], [])
  | c :: cs =>
    if isDigitCh c then
      let (ds, rest) := takeDigits cs
      (c :: ds, rest)
    else ([], c :: cs)

/-- Read a maximal run of letters, returning them and the rest. -/
def takeAlpha : List Char → (List Char × List Char)
  | [] => ([], [])
  | c :: cs =>
    if isAlphaCh c then
      let (ds, rest) := takeAlpha cs
      (c :: ds, rest)
    else ([], c :: cs)

/-- Value of a digit string as a natural number. -/
def digitsVal (ds : List Char) : ℕ :=
  ds.foldl (fun acc c => 10 * acc + digitVal c) 0

/-- Exact value of a decimal literal `intpart . fracpart` as a pair
`(mantissa, scale)` denoting `mantissa / 10 ^ scale` (Python float literal
text, represented exactly). -/
def decimalVal (intpart fracpart : List Char) : ℕ × ℕ :=
  (digitsVal (intpart ++ fracpart), fracpart.length)

/-- Tokenizer, fuel-indexed for structural recursion; `none` models a Python
`SyntaxError` on an unlexable character (for example a stray `'%'`, which in
the calculator never reaches `eval` because `_evaluate` rewrites it first). -/
def tokenizeAux (fuel : Nat) (cs : List Char) : Option (List Token) :=
  match fuel with
  | 0 => none
  | fuel + 1 =>
    match cs with
    | [] => some []
    | ' ' :: rest => tokenizeAux fuel rest
    | '+' :: rest => (tokenizeAux fuel rest).map (Token.plus :: ·)
    | '-' :: rest => (tokenizeAux fuel rest).map (Token.minus :: ·)
    | '*' :: '*' :: rest => (tokenizeAux fuel rest).map (Token.pow :: ·)
    | '*' :: rest => (tokenizeAux fuel rest).map (Token.mul :: ·)
    | '/' :: rest => (tokenizeAux fuel rest).map (Token.div :: ·)
    | '(' :: rest => (tokenizeAux fuel rest).map (Token.lparen :: ·)
    | ')' :: rest => (tokenizeAux fuel rest).map (Token.rparen :: ·)
    | c :: rest =>
      if isDigitCh c || c = '.' then
        -- a numeric literal: digits, optionally '.' and more digits;
        -- at least one digit overall (as for Python float literals)
        let (ip, rest1) := takeDigits (c :: rest)
        match rest1 with
        | '.' :: rest2 =>
          let (fp, rest3) := takeDigits rest2
          if ip.length + fp.length = 0 then none
          else
            (tokenizeAux fuel rest3).map
              (Token.num (decimalVal ip fp).1 (decimalVal ip fp).2 :: ·)
        | _ =>
          if ip.length = 0 then none
          else (tokenizeAux fuel rest1).map (Token.num (digitsVal ip) 0 :: ·)
      else if isAlphaCh c then
        let (nm, rest1) := takeAlpha (c :: rest)
        (tokenizeAux fuel rest1).map (Token.ident (String.mk nm) :: ·)
      else none

/-- Tokenize a character list (enough fuel: each step consumes ≥ 1 character). -/
def tokenize (cs : List Char) : Option (List Token) :=
  tokenizeAux (cs.length + 1) cs

/-- Abstract syntax of the expressions Python's `eval` can produce from the
token stream: literals, name lookups, one-argument calls (the button grid has
no comma, so multi-argument calls are unreachable), unary minus and the binary
operators. -/
inductive Expr where
  | num (mant scale : ℕ)
  | ident (s : String)
  | call (f : String) (a : Expr)
  | neg (a : Expr)
  | add (a b : Expr)
  | sub (a b : Expr)
  | mul (a b : Expr)
  | div (a b : Expr)
  | pow (a b : Expr)
  deriving DecidableEq, Repr

/-- Parser levels: `sum`/`prod` are the two precedence levels of binary
`+ -` and `* /`, with `sumT`/`prodT` their left-associative continuation
loops (the accumulator argument is only meaningful there); `una` is unary
`+`/`-`, `pw` the right-associative power level, `atom` literals, names,
calls and parenthesised expressions.  This mirrors Python's grammar on the
reachable operator set. -/
inductive PL where
  | sum
  | sumT
  | prod
  | prodT
  | una
  | pw
  | atom
  deriving DecidableEq, Repr

/-- Fuel-indexed recursive-descent parser; returns the parsed expression and
the unconsumed tokens.  `none` models a Python `SyntaxError`. -/
def parseAux (fuel : Nat) (lv : PL) (acc : Expr) (ts : List Token) :
    Option (Expr × List Token) :=
  match fuel with
  | 0 => none
  | fuel + 1 =>
    match lv with
    | PL.sum =>
      match parseAux fuel PL.prod acc ts with
      | none => none
      | some (a, r) => parseAux fuel PL.sumT a r
    | PL.sumT =>
      match ts with
      | Token.plus :: r =>
        match parseAux fuel PL.prod acc r with
        | none => none
        | some (b, r1) => parseAux fuel PL.sumT (Expr.add acc b) r1
      | Token.minus :: r =>
        match parseAux fuel PL.prod acc r with
        | none => none
        | some (b, r1) => parseAux fuel PL.sumT (Expr.sub acc b) r1
      | _ => some (acc, ts)
    | PL.prod =>
      match parseAux fuel PL.una acc ts with
      | none => none
      | some (a, r) => parseAux fuel PL.prodT a r
    | PL.prodT =>
      match ts with
      | Token.mul :: r =>
        match parseAux fuel PL.una acc r with
        | none => none
        | some (b, r1) => parseAux fuel PL.prodT (Expr.mul acc b) r1
      | Token.div :: r =>
        match parseAux fuel PL.una acc r with
        | none => none
        | some (b, r1) => parseAux fuel PL.prodT (Expr.div acc b) r1
      | _ => some (acc, ts)
    | PL.una =>
      match ts with
      | Token.minus :: r =>
        match parseAux fuel PL.una acc r with
        | none => none
        | some (a, r1) => some (Expr.neg a, r1)
      | Token.plus :: r => parseAux fuel PL.una acc r
      | _ => parseAux fuel PL.pw acc ts
    | PL.pw =>
      match parseAux fuel PL.atom acc ts with
      | none => none
      | some (a, r) =>
        match r with
        | Token.pow :: r1 =>
          match parseAux fuel PL.una acc r1 with
          | none => none
          | some (b, r2) => some (Expr.pow a b, r2)
        | _ => some (a, r)
    | PL.atom =>
      match ts with
      | Token.num m k :: r => some (Expr.num m k, r)
      | Token.ident f :: Token.lparen :: r =>
        match parseAux fuel PL.sum acc r with
        | none => none
        | some (a, r1) =>
          match r1 with
          | Token.rparen :: r2 => some (Expr.call f a, r2)
          | _ => none
      | Token.ident s :: r => some (Expr.ident s, r)
      | Token.lparen :: r =>
        match parseAux fuel PL.sum acc r with
        | none => none
        | some (a, r1) =>
          match r1 with
          | Token.rparen :: r2 => some (a, r2)
          | _ => none
      | _ => none

/-- Parse a complete expression string: tokenize, parse a `sum`, require all
tokens consumed.  The fuel `6 * (length + 1)` dominates the recursion depth
(at most five non-consuming level descents between token consumptions). -/
def parseString (s : String) : Option Expr :=
  match tokenize s.data with
  | none => none
  | some ts =>
    match parseAux (6 * (ts.length + 1)) PL.sum (Expr.num 0 0) ts with
    | some (e, []) => some e
    | _ => none

/-! ## The evaluation environment (`make_math_env`) -/

/-- `math.radians`: degree-to-radian conversion. -/
noncomputable def radians (x : ℝ) : ℝ := x * Real.pi / 180

/-- `sin_fn` from `make_math_env`: obeys the degrees mode. -/
noncomputable def sin_fn (degrees_mode : Bool) (x : ℝ) : ℝ :=
  if degrees_mode then Real.sin (radians x) else Real.sin x

/-- `cos_fn` from `make_math_env`: obeys the degrees mode. -/
noncomputable def cos_fn (degrees_mode : Bool) (x : ℝ) : ℝ :=
  if degrees_mode then Real.cos (radians x) else Real.cos x

/-- `tan_fn` from `make_math_env`: obeys the degrees mode. -/
noncomputable def tan_fn (degrees_mode : Bool) (x : ℝ) : ℝ :=
  if degrees_mode then Real.tan (radians x) else Real.tan x

open scoped Classical in
/-- Python's built-in `round`: round half to even (banker's rounding);
otherwise round to the nearest integer. -/
noncomputable def pyRound (x : ℝ) : ℝ :=
  if Int.fract x = 1 / 2 then
    (if Even ⌊x⌋ then (⌊x⌋ : ℝ) else (⌈x⌉ : ℝ))
  else (round x : ℝ)

open scoped Classical in
/-- Function-name lookup and application in the `make_math_env` environment.
`none` models the Python exceptions: `ValueError` for `sqrt`/`log`/`ln`
outside their real domain, `TypeError`/`NameError` for a call to anything the
environment does not bind to a function (`__builtins__` is disabled). -/
noncomputable def applyFn (degrees_mode : Bool) (f : String) (x : ℝ) : Option ℝ :=
  if f = "sin" then some (sin_fn degrees_mode x)
  else if f = "cos" then some (cos_fn degrees_mode x)
  else if f = "tan" then some (tan_fn degrees_mode x)
  else if f = "sqrt" then (if 0 ≤ x then some (Real.sqrt x) else none)
  else if f = "log" then (if 0 < x then some (Real.logb 10 x) else none)
  else if f = "ln" then (if 0 < x then some (Real.log x) else none)
  else if f = "abs" then some |x|
  else if f = "round" then some (pyRound x)
  else none

/-- Constant-name lookup in the `make_math_env` environment: `pi` and `e`.
Any other bare name is a failure (`NameError`; bare function names would in
Python evaluate to function objects, which never denote a numeric result and
are modelled as failures). -/
noncomputable def constVal (s : String) : Option ℝ :=
  if s = "pi" then some Real.pi
  else if s = "e" then some (Real.exp 1)
  else none

open scoped Classical in
/-- Real-valued semantics of an expression, as Python's `eval` computes it
against `make_math_env`.  `none` models any raised exception: division by
zero (`ZeroDivisionError`), `0 **` a negative exponent, a negative base with
a non-integer exponent (Python produces a complex number there, which is not
a real result), domain errors and undefined names. -/
noncomputable def evalAST (degrees_mode : Bool) : Expr → Option ℝ
  | Expr.num m k => some ((m : ℝ) / 10 ^ k)
  | Expr.ident s => constVal s
  | Expr.call f a =>
    match evalAST degrees_mode a with
    | none => none
    | some v => applyFn degrees_mode f v
  | Expr.neg a =>
    match evalAST degrees_mode a with
    | none => none
    | some v => some (-v)
  | Expr.add a b =>
    match evalAST degrees_mode a, evalAST degrees_mode b with
    | some va, some vb => some (va + vb)
    | _, _ => none
  | Expr.sub a b =>
    match evalAST degrees_mode a, evalAST degrees_mode b with
    | some va, some vb => some (va - vb)
    | _, _ => none
  | Expr.mul a b =>
    match evalAST degrees_mode a, evalAST degrees_mode b with
    | some va, some vb => some (va * vb)
    | _, _ => none
  | Expr.div a b =>
    match evalAST degrees_mode a, evalAST degrees_mode b with
    | some va, some vb => if vb = 0 then none else some (va / vb)
    | _, _ => none
  | Expr.pow a b =>
    match evalAST degrees_mode a, evalAST degrees_mode b with
    | some va, some vb =>
      if va = 0 ∧ vb < 0 then none
      else if va < 0 ∧ ¬ (∃ n : ℤ, (n : ℝ) = vb) then none
      else some (va ^ vb)
    | _, _ => none

/-- Evaluate an expression string in the given mode: parse, then evaluate.
This is `eval(expr, env)` with `env = make_math_env(deg_mode)`. -/
noncomputable def evalString (degrees_mode : Bool) (s : String) : Option ℝ :=
  match parseString s with
  | none => none
  | some e => evalAST degrees_mode e

/-! ## The calculator state machine -/

/-- `self.expression.replace('%', '/100')`, character by character (the
pattern is a single character, so Python's left-to-right replacement is
exactly this map). -/
def replacePercentL : List Char → List Char
  | [] => []
  | c :: rest =>
    if c = '%' then '/' :: '1' :: '0' :: '0' :: replacePercentL rest
    else c :: replacePercentL rest

/-- String form of the percent rewrite performed by `_evaluate`. -/
def replacePercentS (s : String) : String :=
  String.mk (replacePercentL s.data)

/-- The mutable state of `ScientificCalculator`: the expression buffer, the
display (`screen_var`), the last successful result (`last_answer`, initially
`None`) and the degrees/radians flag (`deg_mode`, initially degrees). -/
structure CalcState where
  expression : String
  screen : String
  last_answer : Option ℝ
  deg_mode : Bool

/-- The state after `__init__`/`_build_ui`. -/
def initState : CalcState :=
  { expression := "", screen := "", last_answer := none, deg_mode := true }

/-- `_insert`: append a token to the buffer and mirror it on the display. -/
def insertTok (st : CalcState) (tok : String) : CalcState :=
  { st with expression := st.expression ++ tok, screen := st.expression ++ tok }

/-- `_clear`: empty the buffer and the display. -/
def clearAll (st : CalcState) : CalcState :=
  { st with expression := "", screen := "" }

/-- `_evaluate`: on an empty buffer do nothing; otherwise rewrite `%` and
evaluate in the current mode.  On success show and store the result (the
result string also becomes the new buffer, allowing chaining); on any failure
show `"Error"` and reset the buffer.  `fmt` abstracts the host float/int
formatting (`f"{result:.12g}"` resp. `str`), which is floating-point
behaviour outside the real-number model; no property below depends on it. -/
noncomputable def evaluate (fmt : ℝ → String) (st : CalcState) : CalcState :=
  if st.expression = "" then st
  else
    match evalString st.deg_mode (replacePercentS st.expression) with
    | some r =>
      { st with screen := fmt r, last_answer := some r, expression := fmt r }
    | none => { st with screen := "Error", expression := "" }

/-! ## Trigonometric-name tracking (for the mode-noninterference property) -/

/-- The three function names whose semantics depend on the mode flag. -/
def isTrigName (s : String) : Bool :=
  s = "sin" || s = "cos" || s = "tan"

/-- A token that is one of the identifiers `sin`, `cos`, `tan`. -/
def isTrigTok : Token → Bool
  | Token.ident n => isTrigName n
  | _ => false

/-- A token that is not a trigonometric identifier. -/
def trigFreeTok : Token → Bool
  | Token.ident s => !(isTrigName s)
  | _ => true

/-- A token list free of trigonometric identifiers. -/
def trigFreeToks (ts : List Token) : Bool :=
  ts.all trigFreeTok

/-- An expression containing no call to `sin`, `cos` or `tan`. -/
def trigFreeE : Expr → Bool
  | Expr.num _ _ => true
  | Expr.ident _ => true
  | Expr.call f a => !(isTrigName f) && trigFreeE a
  | Expr.neg a => trigFreeE a
  | Expr.add a b => trigFreeE a && trigFreeE b
  | Expr.sub a b => trigFreeE a && trigFreeE b
  | Expr.mul a b => trigFreeE a && trigFreeE b
  | Expr.div a b => trigFreeE a && trigFreeE b
  | Expr.pow a b => trigFreeE a && trigFreeE b

/-- Whether an expression string mentions `sin`, `cos` or `tan` (as a lexical
token; a string that does not even tokenize mentions nothing). -/
def mentionsTrig (s : String) : Bool :=
  match tokenize s.data with
  | none => false
  | some ts => ts.any isTrigTok

/-! ## Helper lemmas -/

/-- Pointwise relation between the two token classifiers. -/
theorem trigFreeTok_eq (t : Token) : trigFreeTok t = !isTrigTok t := by
  cases t <;> rfl

/-- Unfolding lemma for `trigFreeToks` on a cons cell. -/
theorem trigFreeToks_cons {t : Token} {ts : List Token}
    (h : trigFreeToks (t :: ts) = true) :
    trigFreeTok t = true ∧ trigFreeToks ts = true := by
  simpa [trigFreeToks] using h

/-- The parser invents no function names: an expression parsed from a token
list free of trigonometric identifiers (with a trig-free accumulator) is
itself free of trigonometric calls, and so is the unconsumed remainder. -/
theorem parseAux_trigFree (fuel : Nat) : ∀ (lv : PL) (acc : Expr) (ts : List Token)
    (e : Expr) (rest : List Token),
    trigFreeToks ts = true → trigFreeE acc = true →
    parseAux fuel lv acc ts = some (e, rest) →
    trigFreeE e = true ∧ trigFreeToks rest = true := by
  induction fuel with
  | zero =>
    intro lv acc ts e rest _ _ h
    simp [parseAux] at h
  | succ fuel ih =>
    intro lv acc ts e rest hts hacc h
    cases lv with
    | sum =>
      simp only [parseAux] at h
      split at h
      next => exact absurd h (by simp)
      next a r heq =>
        obtain ⟨ha, hr⟩ := ih PL.prod acc ts a r hts hacc heq
        exact ih PL.sumT a r e rest hr ha h
    | sumT =>
      simp only [parseAux] at h
      split at h
      next r =>
        split at h
        next => exact absurd h (by simp)
        next b r1 heq =>
          obtain ⟨hb, hr1⟩ :=
            ih PL.prod acc r b r1 (trigFreeToks_cons hts).2 hacc heq
          exact ih PL.sumT (Expr.add acc b) r1 e rest hr1 (by simp [trigFreeE, hacc, hb]) h
      next r =>
        split at h
        next => exact absurd h (by simp)
        next b r1 heq =>
          obtain ⟨hb, hr1⟩ :=
            ih PL.prod acc r b r1 (trigFreeToks_cons hts).2 hacc heq
          exact ih PL.sumT (Expr.sub acc b) r1 e rest hr1 (by simp [trigFreeE, hacc, hb]) h
      next =>
        simp only [Option.some.injEq, Prod.mk.injEq] at h
        exact ⟨h.1 ▸ hacc, h.2 ▸ hts⟩
    | prod =>
      simp only [parseAux] at h
      split at h
      next => exact absurd h (by simp)
      next a r heq =>
        obtain ⟨ha, hr⟩ := ih PL.una acc ts a r hts hacc heq
        exact ih PL.prodT a r e rest hr ha h
    | prodT =>
      simp only [parseAux] at h
      split at h
      next r =>
        split at h
        next => exact absurd h (by simp)
        next b r1 heq =>
          obtain ⟨hb, hr1⟩ :=
            ih PL.una acc r b r1 (trigFreeToks_cons hts).2 hacc heq
          exact ih PL.prodT (Expr.mul acc b) r1 e rest hr1 (by simp [trigFreeE, hacc, hb]) h
      next r =>
        split at h
        next => exact absurd h (by simp)
        next b r1 heq =>
          obtain ⟨hb, hr1⟩ :=
            ih PL.una acc r b r1 (trigFreeToks_cons hts).2 hacc heq
          exact ih PL.prodT (Expr.div acc b) r1 e rest hr1 (by simp [trigFreeE, hacc, hb]) h
      next =>
        simp only [Option.some.injEq, Prod.mk.injEq] at h
        exact ⟨h.1 ▸ hacc, h.2 ▸ hts⟩
    | una =>
      simp only [parseAux] at h
      split at h
      next r =>
        split at h
        next => exact absurd h (by simp)
        next a r1 heq =>
          obtain ⟨ha, hr1⟩ :=
            ih PL.una acc r a r1 (trigFreeToks_cons hts).2 hacc heq
          simp only [Option.some.injEq, Prod.mk.injEq] at h
          exact ⟨h.1 ▸ (by simp [trigFreeE, ha]), h.2 ▸ hr1⟩
      next r =>
        exact ih PL.una acc r e rest (trigFreeToks_cons hts).2 hacc h
      next =>
        exact ih PL.pw acc ts e rest hts hacc h
    | pw =>
      simp only [parseAux] at h
      split at h
      next => exact absurd h (by simp)
      next a r heq =>
        obtain ⟨ha, hr⟩ := ih PL.atom acc ts a r hts hacc heq
        split at h
        next r1 =>
          split at h
          next => exact absurd h (by simp)
          next b r2 heq2 =>
            obtain ⟨hb, hr2⟩ :=
              ih PL.una acc r1 b r2 (trigFreeToks_cons hr).2 hacc heq2
            simp only [Option.some.injEq, Prod.mk.injEq] at h
            exact ⟨h.1 ▸ (by simp [trigFreeE, ha, hb]), h.2 ▸ hr2⟩
        next =>
          simp only [Option.some.injEq, Prod.mk.injEq] at h
          exact ⟨h.1 ▸ ha, h.2 ▸ hr⟩
    | atom =>
      simp only [parseAux] at h
      split at h
      next m k r =>
        simp only [Option.some.injEq, Prod.mk.injEq] at h
        exact ⟨h.1 ▸ rfl, h.2 ▸ (trigFreeToks_cons hts).2⟩
      next f r =>
        split at h
        next => exact absurd h (by simp)
        next a r1 heq =>
          obtain ⟨ha, hr1⟩ :=
            ih PL.sum acc r a r1 (trigFreeToks_cons (trigFreeToks_cons hts).2).2 hacc heq
          split at h
          next r2 =>
            simp only [Option.some.injEq, Prod.mk.injEq] at h
            have hf : trigFreeTok (Token.ident f) = true := (trigFreeToks_cons hts).1
            simp only [trigFreeTok] at hf
            exact ⟨h.1 ▸ (by simp [trigFreeE, hf, ha]), h.2 ▸ (trigFreeToks_cons hr1).2⟩
          next => exact absurd h (by simp)
      next s r =>
        simp only [Option.some.injEq, Prod.mk.injEq] at h
        exact ⟨h.1 ▸ rfl, h.2 ▸ (trigFreeToks_cons hts).2⟩
      next r =>
        split at h
        next => exact absurd h (by simp)
        next a r1 heq =>
          obtain ⟨ha, hr1⟩ :=
            ih PL.sum acc r a r1 (trigFreeToks_cons hts).2 hacc heq
          split at h
          next r2 =>
            simp only [Option.some.injEq, Prod.mk.injEq] at h
            exact ⟨h.1 ▸ ha, h.2 ▸ (trigFreeToks_cons hr1).2⟩
          next => exact absurd h (by simp)
      next => exact absurd h (by simp)

/-- The environment is mode-independent on every non-trigonometric name. -/
theorem applyFn_mode_indep (f : String) (x : ℝ) (h : isTrigName f = false) :
    applyFn true f x = applyFn false f x := by
  simp only [isTrigName, Bool.or_eq_false_iff, decide_eq_false_iff_not] at h
  obtain ⟨⟨h1, h2⟩, h3⟩ := h
  simp [applyFn, h1, h2, h3]

/-- Evaluation of an expression with no trigonometric call does not depend on
the degrees/radians flag. -/
theorem evalAST_mode_indep : ∀ e : Expr, trigFreeE e = true →
    evalAST true e = evalAST false e := by
  intro e he
  induction e with
  | num m k => simp [evalAST]
  | ident s => simp [evalAST]
  | call f a iha =>
    simp only [trigFreeE, Bool.and_eq_true, Bool.not_eq_true'] at he
    obtain ⟨hf, ha⟩ := he
    simp only [evalAST, iha ha]
    cases evalAST false a with
    | none => rfl
    | some v => exact applyFn_mode_indep f v hf
  | neg a iha =>
    simp only [trigFreeE] at he
    simp [evalAST, iha he]
  | add a b iha ihb =>
    simp only [trigFreeE, Bool.and_eq_true] at he
    simp [evalAST, iha he.1, ihb he.2]
  | sub a b iha ihb =>
    simp only [trigFreeE, Bool.and_eq_true] at he
    simp [evalAST, iha he.1, ihb he.2]
  | mul a b iha ihb =>
    simp only [trigFreeE, Bool.and_eq_true] at he
    simp [evalAST, iha he.1, ihb he.2]
  | div a b iha ihb =>
    simp only [trigFreeE, Bool.and_eq_true] at he
    simp [evalAST, iha he.1, ihb he.2]
  | pow a b iha ihb =>
    simp only [trigFreeE, Bool.and_eq_true] at he
    simp [evalAST, iha he.1, ihb he.2]

/-- Concrete evaluation: `"2+2"` evaluates to `4` in either mode. -/
theorem eval_two_plus_two (m : Bool) : evalString m "2+2" = some 4 := by
  have hp : parseString "2+2" = some (Expr.add (Expr.num 2 0) (Expr.num 2 0)) := by rfl
  simp [evalString, hp, evalAST]
  norm_num

/-- Concrete evaluation: `"sin(30)"` in degrees mode is `sin (π/6) = 1/2`. -/
theorem eval_sin30_deg : evalString true "sin(30)" = some (1 / 2) := by
  have hp : parseString "sin(30)" = some (Expr.call "sin" (Expr.num 30 0)) := by rfl
  simp [evalString, hp, evalAST, applyFn, sin_fn, radians]
  rw [show (30 : ℝ) * Real.pi / 180 = Real.pi / 6 by ring, Real.sin_pi_div_six]
  norm_num

/-- Concrete evaluation: `"sin(30)"` in radians mode is `sin 30`. -/
theorem eval_sin30_rad : evalString false "sin(30)" = some (Real.sin 30) := by
  have hp : parseString "sin(30)" = some (Expr.call "sin" (Expr.num 30 0)) := by rfl
  simp [evalString, hp, evalAST, applyFn, sin_fn]

/-- Interval bound on `sin 30` (30 radians): it is within `0.001` of `-0.988`.
Obtained from the quartic Taylor bound on `cos` after shifting `30` by `19π/2`. -/
theorem sin30_approx : |Real.sin 30 + 0.988| < 0.001 := by
  have hpi1 : (3.141592 : ℝ) < Real.pi := Real.pi_gt_d6
  have hpi2 : Real.pi < 3.141593 := Real.pi_lt_d6
  obtain ⟨y, hy⟩ : ∃ t : ℝ, t = 30 - 19 * Real.pi / 2 := ⟨_, rfl⟩
  have h30 : (30 : ℝ) = y + Real.pi + Real.pi / 2 + (4 : ℤ) * (2 * Real.pi) := by
    rw [hy]; push_cast; ring
  have hs : Real.sin 30 = -Real.cos y := by
    rw [h30, Real.sin_add_int_mul_two_pi, Real.sin_add_pi_div_two, Real.cos_add_pi]
  have hy1 : (0.154 : ℝ) < y := by rw [hy]; linarith
  have hy2 : y < 0.155 := by rw [hy]; linarith
  have hyabs : |y| ≤ 1 := by
    rw [abs_le]; constructor <;> linarith
  have hcb := Real.cos_bound hyabs
  rw [abs_le] at hcb
  have hay : |y| = y := abs_of_pos (by linarith)
  rw [hay] at hcb
  obtain ⟨hcb1, hcb2⟩ := hcb
  have hsq1 : y ^ 2 < 0.024025 := by nlinarith
  have hsq2 : (0.023716 : ℝ) < y ^ 2 := by nlinarith
  have h4 : y ^ 4 < 0.000578 := by nlinarith [sq_nonneg y]
  have h4p : (0 : ℝ) ≤ y ^ 4 := by positivity
  rw [hs, abs_lt]
  constructor <;> linarith

/-! ## Claim theorems -/

/-- Claim C1: in every evaluation the trigonometric functions `sin`, `cos`
and `tan` of the environment interpret their argument according to the
degrees/radians flag: in degrees mode each applies the underlying function to
the argument converted from degrees to radians, in radians mode directly. -/
theorem trig_obeys_mode_flag (x : ℝ) :
    applyFn true "sin" x = some (Real.sin (radians x)) ∧
    applyFn false "sin" x = some (Real.sin x) ∧
    applyFn true "cos" x = some (Real.cos (radians x)) ∧
    applyFn false "cos" x = some (Real.cos x) ∧
    applyFn true "tan" x = some (Real.tan (radians x)) ∧
    applyFn false "tan" x = some (Real.tan x) := by
  refine ⟨?_, ?_, ?_, ?_, ?_, ?_⟩ <;> simp [applyFn, sin_fn, cos_fn, tan_fn]

/-- Claim C2: whenever evaluation of a nonempty buffer fails — for any reason,
with no differentiated error taxonomy — the display is set to the generic
string `"Error"` and the expression buffer is reset to empty. -/
theorem eval_failure_error_and_reset (fmt : ℝ → String) (st : CalcState)
    (hne : st.expression ≠ "")
    (hfail : evalString st.deg_mode (replacePercentS st.expression) = none) :
    (evaluate fmt st).screen = "Error" ∧ (evaluate fmt st).expression = "" := by
  simp [evaluate, hne, hfail]

/-- Witness for C2 at the domain error `"1/0"` (division by zero). -/
theorem eval_failure_error_and_reset_witness :
    (("1/0" : String) ≠ "") ∧
    evalString true (replacePercentS "1/0") = none ∧
    (evaluate (fun _ => "") ⟨"1/0", "", none, true⟩).screen = "Error" ∧
    (evaluate (fun _ => "") ⟨"1/0", "", none, true⟩).expression = "" := by
  have hne : ("1/0" : String) ≠ "" := by decide
  have hfail : evalString true (replacePercentS "1/0") = none := by
    have hp : parseString "1/0" = some (Expr.div (Expr.num 1 0) (Expr.num 0 0)) := by rfl
    show evalString true "1/0" = none
    simp [evalString, hp, evalAST]
  exact ⟨hne, hfail,
    (eval_failure_error_and_reset (fun _ => "") ⟨"1/0", "", none, true⟩ hne hfail).1,
    (eval_failure_error_and_reset (fun _ => "") ⟨"1/0", "", none, true⟩ hne hfail).2⟩

/-- Claim C3: evaluation rewrites every percent sign as division by 100
before evaluating: the rewrite expands each `'%'` into `"/100"` wherever it
occurs, and evaluating the buffer `"50%"` yields `0.5`. -/
theorem percent_rewritten_as_div100 :
    (∀ a b : List Char, replacePercentL (a ++ '%' :: b) =
      replacePercentL a ++ '/' :: '1' :: '0' :: '0' :: replacePercentL b) ∧
    (∀ (m : Bool) (fmt : ℝ → String) (scr : String) (ans : Option ℝ),
      evalString m (replacePercentS "50%") = some (1 / 2) ∧
      (evaluate fmt ⟨"50%", scr, ans, m⟩).last_answer = some (1 / 2)) := by
  constructor
  · intro a b
    induction a with
    | nil => simp [replacePercentL]
    | cons c a ihc =>
      by_cases hc : c = '%' <;> simp [replacePercentL, hc, ihc]
  · intro m fmt scr ans
    have hne : ("50%" : String) ≠ "" := by decide
    have hev : evalString m (replacePercentS "50%") = some (1 / 2) := by
      have hp : parseString "50/100" =
          some (Expr.div (Expr.num 50 0) (Expr.num 100 0)) := by rfl
      show evalString m "50/100" = some (1 / 2)
      norm_num [evalString, hp, evalAST]
    exact ⟨hev, by simp [evaluate, hne, hev]⟩

/-- Claim C4: the previous answer is the result of the last successful
evaluation: a successful evaluation of a nonempty buffer stores the computed
result in `last_answer`, while a failed evaluation leaves `last_answer` (and
the mode flag) unchanged. -/
theorem last_answer_tracks_success (fmt : ℝ → String) (st : CalcState) (r : ℝ) :
    (st.expression ≠ "" →
      evalString st.deg_mode (replacePercentS st.expression) = some r →
      (evaluate fmt st).last_answer = some r) ∧
    (evalString st.deg_mode (replacePercentS st.expression) = none →
      (evaluate fmt st).last_answer = st.last_answer ∧
      (evaluate fmt st).deg_mode = st.deg_mode) := by
  constructor
  · intro hne hok
    simp [evaluate, hne, hok]
  · intro hfail
    by_cases hemp : st.expression = ""
    · simp [evaluate, hemp]
    · simp [evaluate, hemp, hfail]

/-- Witness for C4: a successful evaluation (`"2+2"`, storing `4`) and a
failed one (`"("`, leaving the stored `7` unchanged). -/
theorem last_answer_tracks_success_witness :
    (("2+2" : String) ≠ "") ∧
    evalString true (replacePercentS "2+2") = some 4 ∧
    (evaluate (fun _ => "4") ⟨"2+2", "", none, true⟩).last_answer = some 4 ∧
    evalString true (replacePercentS "(") = none ∧
    (evaluate (fun _ => "") ⟨"(", "", some 7, true⟩).last_answer = some 7 := by
  have hne : ("2+2" : String) ≠ "" := by decide
  have hok : evalString true (replacePercentS "2+2") = some 4 := by
    show evalString true "2+2" = some 4
    exact eval_two_plus_two true
  have hfail : evalString true (replacePercentS "(") = none := by
    show evalString true "(" = none
    rfl
  refine ⟨hne, hok,
    (last_answer_tracks_success (fun _ => "4") ⟨"2+2", "", none, true⟩ 4).1 hne hok,
    hfail, ?_⟩
  exact ((last_answer_tracks_success (fun _ => "") ⟨"(", "", some 7, true⟩ 0).2 hfail).1

/-- Claim C5: evaluating `"sin(30)"` in degrees mode yields `0.5`; on the
state machine the display shows the formatted `1/2` and it is stored as the
last answer. -/
theorem sin30_degrees_yields_half (fmt : ℝ → String) (scr : String) (ans : Option ℝ) :
    evalString true "sin(30)" = some (1 / 2) ∧
    (evaluate fmt ⟨"sin(30)", scr, ans, true⟩).screen = fmt (1 / 2) ∧
    (evaluate fmt ⟨"sin(30)", scr, ans, true⟩).last_answer = some (1 / 2) := by
  have hne : ("sin(30)" : String) ≠ "" := by decide
  have hev : evalString true (replacePercentS "sin(30)") = some (1 / 2) := by
    show evalString true "sin(30)" = some (1 / 2)
    exact eval_sin30_deg
  exact ⟨eval_sin30_deg, by simp [evaluate, hne, hev], by simp [evaluate, hne, hev]⟩

/-- Claim C6: evaluating `"sin(30)"` in radians mode yields `sin 30`, which
is within `0.001` of `-0.988` and differs from the degrees-mode result. -/
theorem sin30_radians_differs :
    evalString false "sin(30)" = some (Real.sin 30) ∧
    |Real.sin 30 + 0.988| < 0.001 ∧
    evalString false "sin(30)" ≠ evalString true "sin(30)" := by
  refine ⟨eval_sin30_rad, sin30_approx, ?_⟩
  rw [eval_sin30_rad, eval_sin30_deg]
  intro h
  have h2 : Real.sin 30 = 1 / 2 := Option.some.inj h
  have h3 := sin30_approx
  rw [abs_lt] at h3
  linarith

/-- Claim C7: evaluating `"2+2"` yields `4` in either mode, and the state
machine stores `4` as the last answer. -/
theorem two_plus_two_yields_four (m : Bool) (fmt : ℝ → String) (scr : String)
    (ans : Option ℝ) :
    evalString m "2+2" = some 4 ∧
    (evaluate fmt ⟨"2+2", scr, ans, m⟩).last_answer = some 4 := by
  have hne : ("2+2" : String) ≠ "" := by decide
  have hev : evalString m (replacePercentS "2+2") = some 4 := by
    show evalString m "2+2" = some 4
    exact eval_two_plus_two m
  exact ⟨eval_two_plus_two m, by simp [evaluate, hne, hev]⟩

/-- Claim C8: in every evaluation (either mode), the name `log` denotes the
base-10 logarithm and the name `ln` the natural logarithm, on their shared
domain of positive arguments. -/
theorem log_base10_ln_natural (m : Bool) (x : ℝ) (hx : 0 < x) :
    applyFn m "log" x = some (Real.logb 10 x) ∧
    applyFn m "ln" x = some (Real.log x) := by
  constructor <;> simp [applyFn, hx]

/-- Witness for C8 at `x = 100`. -/
theorem log_base10_ln_natural_witness :
    (0 : ℝ) < 100 ∧
    applyFn true "log" 100 = some (Real.logb 10 100) ∧
    applyFn true "ln" 100 = some (Real.log 100) := by
  refine ⟨by norm_num, ?_, ?_⟩
  · exact (log_base10_ln_natural true 100 (by norm_num)).1
  · exact (log_base10_ln_natural true 100 (by norm_num)).2

/-- Claim C9: pressing `"="` with an empty expression buffer is a no-op: the
whole state, display, buffer, last answer and mode included, is unchanged. -/
theorem eval_empty_buffer_noop (fmt : ℝ → String) (st : CalcState)
    (h : st.expression = "") : evaluate fmt st = st := by
  simp [evaluate, h]

/-- Witness for C9 at the initial state. -/
theorem eval_empty_buffer_noop_witness :
    initState.expression = "" ∧ evaluate (fun _ => "0") initState = initState :=
  ⟨rfl, eval_empty_buffer_noop (fun _ => "0") initState rfl⟩

/-- Claim C10: two-run noninterference of the mode flag: an expression that
mentions none of `sin`, `cos`, `tan` evaluates identically in degrees mode
and in radians mode. -/
theorem mode_flag_noninterference (s : String) (h : mentionsTrig s = false) :
    evalString true s = evalString false s := by
  unfold mentionsTrig at h
  cases htk : tokenize s.data with
  | none => simp [evalString, parseString, htk]
  | some ts =>
    simp only [htk] at h
    have hfree : trigFreeToks ts = true := by
      simp only [trigFreeToks, List.all_eq_true]
      intro t ht
      rw [trigFreeTok_eq, Bool.not_eq_true']
      rcases hcase : isTrigTok t with _ | _
      · rfl
      · exact absurd (List.any_eq_true.2 ⟨t, ht, hcase⟩) (by simp [h])
    cases hp : parseAux (6 * (ts.length + 1)) PL.sum (Expr.num 0 0) ts with
    | none => simp [evalString, parseString, htk, hp]
    | some p =>
      obtain ⟨e, rest⟩ := p
      cases rest with
      | nil =>
        have he : trigFreeE e = true :=
          (parseAux_trigFree _ PL.sum (Expr.num 0 0) ts e [] hfree rfl hp).1
        simp [evalString, parseString, htk, hp, evalAST_mode_indep e he]
      | cons t r =>
        simp [evalString, parseString, htk, hp]

/-- Witness for C10 at the trig-free expression `"2+2"`. -/
theorem mode_flag_noninterference_witness :
    mentionsTrig "2+2" = false ∧ evalString true "2+2" = evalString false "2+2" :=
  ⟨rfl, mode_flag_noninterference "2+2" rfl⟩
